import Mathlib

/-!
# Verification of the `exp` experiment-running library

A shallow embedding of the run scheduler (`src/run.rs`), the configuration
hashing (`src/lib.rs`), the docker runner teardown and network provisioning
(`src/docker_runner.rs`), the stats conversion (`Stats::from_bollard`) and the
log-file reader (`Logs::from_file`), together with proofs of the documented
properties.

Modelling conventions:
* The results directory is a list of directory-entry names (`List String`);
  `create_dir_all` is `List.insert`, `rename old new` is `erase old` followed
  by `insert new`.
* The configuration type is an arbitrary type `σ`; `serde_json::to_writer`
  (the canonical serialization) is an arbitrary function `ser : σ → List Nat`
  and the external `blake3` hex digest is an arbitrary function
  `digest : List Nat → String`.  The content hash of a configuration is
  `digest (ser c)` (`ExperimentConfiguration::hash` in `src/lib.rs`).
* blake3 hex digests consist of hex characters only, so hash strings contain
  no `'.'`; `Path::set_extension` on such a name appends `".running"` or
  `".failed"` (`run.rs`).  The predicate `noDot` captures this.
* The experiment callbacks `pre_run`/`run`/`post_run` are arbitrary functions
  into `Except ε Unit` (`ExpResult` in the source).
-/

/-- A directory name with no `'.'` in it.  blake3 hex digests (the names of
completed configuration directories) satisfy this, which is what makes
`Path::set_extension("running")` a pure suffix append. -/
def noDot (s : String) : Prop := '.' ∉ s.data

instance (s : String) : Decidable (noDot s) := by unfold noDot; infer_instance

/-- Name of the running marker directory: `run.rs` builds it from the hash by
`set_extension("running")`. -/
def runningName (h : String) : String := h ++ ".running"

/-- Name of the failed terminal directory: `set_extension("failed")`. -/
def failedName (h : String) : String := h ++ ".failed"

theorem dot_mem_runningName (h : String) : '.' ∈ (runningName h).data := by
  have : (runningName h).data = h.data ++ ".running".data := String.data_append ..
  rw [this]
  exact List.mem_append_right _ (by decide)

theorem dot_mem_failedName (h : String) : '.' ∈ (failedName h).data := by
  have : (failedName h).data = h.data ++ ".failed".data := String.data_append ..
  rw [this]
  exact List.mem_append_right _ (by decide)

theorem noDot_ne_runningName {g : String} (hg : noDot g) (h : String) :
    g ≠ runningName h := by
  intro e
  exact hg (e ▸ dot_mem_runningName h)

theorem noDot_ne_failedName {g : String} (hg : noDot g) (h : String) :
    g ≠ failedName h := by
  intro e
  exact hg (e ▸ dot_mem_failedName h)

theorem string_append_right_cancel {a b s : String} (e : a ++ s = b ++ s) :
    a = b := by
  have : a.data ++ s.data = b.data ++ s.data := by
    rw [← String.data_append, ← String.data_append, e]
  exact String.ext (List.append_cancel_right this)

theorem failedName_inj {a b : String} (e : failedName a = failedName b) :
    a = b := string_append_right_cancel e

theorem runningName_inj {a b : String} (e : runningName a = runningName b) :
    a = b := string_append_right_cancel e

/-- Splitting at the first `'.'` is unambiguous: if two dot-free prefixes are
followed by dot-led suffixes and the concatenations agree, the parts agree. -/
theorem dotfree_append_inj : ∀ (xs ys a b : List Char), '.' ∉ xs → '.' ∉ ys →
    xs ++ '.' :: a = ys ++ '.' :: b → xs = ys ∧ a = b := by
  intro xs
  induction xs with
  | nil =>
    intro ys a b _ hy e
    cases ys with
    | nil => simpa using e
    | cons y ys =>
      simp only [List.nil_append, List.cons_append, List.cons.injEq] at e
      exact absurd (List.mem_cons.mpr (Or.inl e.1)) hy
  | cons x xs ih =>
    intro ys a b hx hy e
    cases ys with
    | nil =>
      simp only [List.nil_append, List.cons_append, List.cons.injEq] at e
      exact absurd (List.mem_cons.mpr (Or.inl e.1.symm)) hx
    | cons y ys =>
      simp only [List.cons_append, List.cons.injEq] at e
      obtain ⟨exy, e⟩ := e
      have hx' : '.' ∉ xs := fun m => hx (List.mem_cons_of_mem _ m)
      have hy' : '.' ∉ ys := fun m => hy (List.mem_cons_of_mem _ m)
      obtain ⟨e1, e2⟩ := ih ys a b hx' hy' e
      exact ⟨by rw [exy, e1], e2⟩

theorem runningName_ne_failedName {a b : String} (ha : noDot a) (hb : noDot b) :
    runningName a ≠ failedName b := by
  intro e
  have e1 : (a ++ ".running").data = (b ++ ".failed").data := congrArg String.data e
  rw [String.data_append, String.data_append,
    show (".running" : String).data = '.' :: "running".data from rfl,
    show (".failed" : String).data = '.' :: "failed".data from rfl] at e1
  obtain ⟨-, e2⟩ := dotfree_append_inj _ _ _ _ ha hb e1
  exact absurd e2 (by decide)

/-! ## The run scheduler (`run.rs`, `run_single`) -/

/-- Result of the enumeration phase of `run_single` (`run.rs` lines 50-74):
the remaining work list plus the duplicate and skipped counters. -/
structure EnumOut (σ : Type) where
  toRun : List σ
  duplicates : Nat
  skipped : Nat
deriving DecidableEq

/-- The enumeration loop of `run_single` (`run.rs` lines 54-67), with the
`seen_configuration_hashes` set made explicit.  For each configuration: if its
hash was already seen it is a duplicate; otherwise the hash is recorded and, if
the completed directory `<hash>` already exists, the configuration is skipped;
otherwise it is queued for execution. -/
def enumerateAux {σ : Type} (hash : σ → String) (fs : List String) :
    List σ → List String → EnumOut σ
  | [], _ => ⟨[], 0, 0⟩
  | c :: cs, seen =>
    if hash c ∈ seen then
      let r := enumerateAux hash fs cs seen
      ⟨r.toRun, r.duplicates + 1, r.skipped⟩
    else if hash c ∈ fs then
      let r := enumerateAux hash fs cs (hash c :: seen)
      ⟨r.toRun, r.duplicates, r.skipped + 1⟩
    else
      let r := enumerateAux hash fs cs (hash c :: seen)
      ⟨c :: r.toRun, r.duplicates, r.skipped⟩

/-- Enumeration as `run_single` performs it, starting from an empty seen-set.
`fs` is the list of entry names already present in the experiment directory. -/
def enumerateConfigs {σ : Type} (hash : σ → String) (fs : List String)
    (cs : List σ) : EnumOut σ :=
  enumerateAux hash fs cs []

/-- Specification-side description of hash deduplication: keep the first
occurrence of every hash value. -/
def dedupKeepFirst {σ : Type} (hash : σ → String) : List σ → List σ
  | [] => []
  | c :: cs => c :: (dedupKeepFirst hash cs).filter fun d => decide (hash d ≠ hash c)

theorem mem_of_mem_dedupKeepFirst {σ : Type} (hash : σ → String) :
    ∀ {l : List σ} {c : σ}, c ∈ dedupKeepFirst hash l → c ∈ l := by
  intro l
  induction l with
  | nil => intro c h; simp [dedupKeepFirst] at h
  | cons d l ih =>
    intro c h
    rw [dedupKeepFirst] at h
    rcases List.mem_cons.mp h with h | h
    · exact h ▸ List.mem_cons_self d l
    · exact List.mem_cons_of_mem _ (ih (List.mem_of_mem_filter h))

theorem dedupKeepFirst_pairwise {σ : Type} (hash : σ → String) :
    ∀ l : List σ, (dedupKeepFirst hash l).Pairwise fun a b => hash a ≠ hash b := by
  intro l
  induction l with
  | nil => simp [dedupKeepFirst]
  | cons c l ih =>
    rw [dedupKeepFirst]
    refine List.pairwise_cons.mpr ⟨?_, ?_⟩
    · intro b hb
      have := (List.mem_filter.mp hb).2
      simp only [ne_eq, decide_eq_true_eq] at this
      exact fun e => this (e.symm)
    · exact List.Pairwise.sublist (List.filter_sublist _) ih

theorem dedupKeepFirst_covers {σ : Type} (hash : σ → String) :
    ∀ (l : List σ) (c : σ), c ∈ l →
      ∃ d ∈ dedupKeepFirst hash l, hash d = hash c := by
  intro l
  induction l with
  | nil => intro c h; simp at h
  | cons e l ih =>
    intro c h
    rw [dedupKeepFirst]
    rcases List.mem_cons.mp h with h | h
    · exact ⟨e, List.mem_cons_self .., by rw [h]⟩
    · obtain ⟨d, hd, hde⟩ := ih c h
      by_cases hcase : hash d = hash e
      · exact ⟨e, List.mem_cons_self .., by rw [← hcase, hde]⟩
      · refine ⟨d, List.mem_cons_of_mem _ ?_, hde⟩
        exact List.mem_filter.mpr ⟨hd, by simpa using hcase⟩

theorem dedupKeepFirst_length_le {σ : Type} (hash : σ → String) :
    ∀ l : List σ, (dedupKeepFirst hash l).length ≤ l.length := by
  intro l
  induction l with
  | nil => simp [dedupKeepFirst]
  | cons c l ih =>
    rw [dedupKeepFirst]
    simp only [List.length_cons, Nat.succ_le_succ_iff]
    exact le_trans (List.length_filter_le _ _) ih

theorem filter_notMem_cons {σ : Type} (hash : σ → String) (x : String)
    (seen : List String) (cs : List σ) :
    (cs.filter fun d => decide (hash d ∉ x :: seen))
      = (cs.filter fun d => decide (hash d ∉ seen)).filter
          fun d => decide (hash d ≠ x) := by
  rw [List.filter_filter]
  apply List.filter_congr
  intro d _
  by_cases hx : hash d = x <;> by_cases hs : hash d ∈ seen <;> simp [hx, hs]

theorem dedupKeepFirst_filter_comm {σ : Type} (hash : σ → String) (x : String) :
    ∀ l : List σ,
      (dedupKeepFirst hash l).filter (fun d => decide (hash d ≠ x))
        = dedupKeepFirst hash (l.filter fun d => decide (hash d ≠ x)) := by
  intro l
  induction l with
  | nil => simp [dedupKeepFirst]
  | cons c l ih =>
    by_cases hcx : hash c = x
    · rw [dedupKeepFirst, List.filter_cons_of_neg (by simp [hcx]),
        List.filter_cons_of_neg (by simp [hcx]), List.filter_filter]
      rw [← ih]
      apply List.filter_congr
      intro d _
      by_cases hd : hash d = x <;> simp [hd, hcx]
    · rw [dedupKeepFirst, List.filter_cons_of_pos (by simp [hcx]),
        List.filter_cons_of_pos (by simp [hcx]), dedupKeepFirst]
      congr 1
      rw [List.filter_filter, ← ih, List.filter_filter]
      apply List.filter_congr
      intro d _
      by_cases h1 : hash d = x <;> by_cases h2 : hash d = hash c <;>
        simp [h1, h2]

theorem enumerateAux_toRun {σ : Type} (hash : σ → String) (fs : List String) :
    ∀ (cs : List σ) (seen : List String),
      (enumerateAux hash fs cs seen).toRun
        = (dedupKeepFirst hash (cs.filter fun c => decide (hash c ∉ seen))).filter
            fun c => decide (hash c ∉ fs) := by
  intro cs
  induction cs with
  | nil => intro seen; simp [enumerateAux, dedupKeepFirst]
  | cons c cs ih =>
    intro seen
    by_cases h1 : hash c ∈ seen
    · rw [List.filter_cons_of_neg (by simp [h1])]
      simp only [enumerateAux, if_pos h1]
      exact ih seen
    · rw [List.filter_cons_of_pos (by simp [h1]), dedupKeepFirst,
        dedupKeepFirst_filter_comm, ← filter_notMem_cons]
      by_cases h2 : hash c ∈ fs
      · rw [List.filter_cons_of_neg (by simp [h2])]
        simp only [enumerateAux, if_neg h1, if_pos h2]
        exact ih (hash c :: seen)
      · rw [List.filter_cons_of_pos (by simp [h2])]
        simp only [enumerateAux, if_neg h1, if_neg h2]
        rw [← ih (hash c :: seen)]

theorem enumerateAux_duplicates {σ : Type} (hash : σ → String) (fs : List String) :
    ∀ (cs : List σ) (seen : List String),
      (enumerateAux hash fs cs seen).duplicates
        = cs.length
          - (dedupKeepFirst hash (cs.filter fun c => decide (hash c ∉ seen))).length := by
  intro cs
  induction cs with
  | nil => intro seen; simp [enumerateAux, dedupKeepFirst]
  | cons c cs ih =>
    intro seen
    have hlen : ∀ seen' : List String,
        (dedupKeepFirst hash (cs.filter fun c => decide (hash c ∉ seen'))).length
          ≤ cs.length :=
      fun seen' => le_trans (dedupKeepFirst_length_le hash _)
        (List.length_filter_le _ _)
    by_cases h1 : hash c ∈ seen
    · rw [List.filter_cons_of_neg (by simp [h1])]
      simp only [enumerateAux, if_pos h1]
      rw [ih seen, List.length_cons]
      have := hlen seen
      omega
    · rw [List.filter_cons_of_pos (by simp [h1]), dedupKeepFirst,
        dedupKeepFirst_filter_comm, ← filter_notMem_cons, List.length_cons,
        List.length_cons]
      have := hlen (hash c :: seen)
      by_cases h2 : hash c ∈ fs
      · simp only [enumerateAux, if_neg h1, if_pos h2]
        rw [ih (hash c :: seen)]
        omega
      · simp only [enumerateAux, if_neg h1, if_neg h2]
        rw [ih (hash c :: seen)]
        omega

theorem enumerateAux_skipped {σ : Type} (hash : σ → String) (fs : List String) :
    ∀ (cs : List σ) (seen : List String),
      (enumerateAux hash fs cs seen).skipped
        = (dedupKeepFirst hash (cs.filter fun c => decide (hash c ∉ seen))).countP
            fun c => decide (hash c ∈ fs) := by
  intro cs
  induction cs with
  | nil => intro seen; simp [enumerateAux, dedupKeepFirst]
  | cons c cs ih =>
    intro seen
    by_cases h1 : hash c ∈ seen
    · rw [List.filter_cons_of_neg (by simp [h1])]
      simp only [enumerateAux, if_pos h1]
      exact ih seen
    · rw [List.filter_cons_of_pos (by simp [h1]), dedupKeepFirst,
        dedupKeepFirst_filter_comm, ← filter_notMem_cons]
      by_cases h2 : hash c ∈ fs
      · simp only [enumerateAux, if_neg h1, if_pos h2]
        rw [ih (hash c :: seen), List.countP_cons_of_pos _ _ (by simp [h2])]
      · simp only [enumerateAux, if_neg h1, if_neg h2]
        rw [ih (hash c :: seen), List.countP_cons_of_neg _ _ (by simp [h2])]

theorem filter_notMem_nil {σ : Type} (hash : σ → String) (cs : List σ) :
    (cs.filter fun c => decide (hash c ∉ ([] : List String))) = cs :=
  List.filter_eq_self.mpr fun _ _ => by simp

/-- What `run_single`'s enumeration keeps for execution: the first occurrence
of every hash, minus those whose completed directory `<hash>` already exists. -/
theorem enumerateConfigs_toRun {σ : Type} (hash : σ → String) (fs : List String)
    (cs : List σ) :
    (enumerateConfigs hash fs cs).toRun
      = (dedupKeepFirst hash cs).filter fun c => decide (hash c ∉ fs) := by
  rw [enumerateConfigs, enumerateAux_toRun, filter_notMem_nil]

theorem enumerateConfigs_duplicates {σ : Type} (hash : σ → String)
    (fs : List String) (cs : List σ) :
    (enumerateConfigs hash fs cs).duplicates
      = cs.length - (dedupKeepFirst hash cs).length := by
  rw [enumerateConfigs, enumerateAux_duplicates, filter_notMem_nil]

theorem enumerateConfigs_skipped {σ : Type} (hash : σ → String)
    (fs : List String) (cs : List σ) :
    (enumerateConfigs hash fs cs).skipped
      = (dedupKeepFirst hash cs).countP fun c => decide (hash c ∈ fs) := by
  rw [enumerateConfigs, enumerateAux_skipped, filter_notMem_nil]

/-! ## Configuration hashing (`src/lib.rs`, `ExperimentConfiguration::hash`) -/

/-- `ExperimentConfiguration::hash` (`lib.rs` lines 19-24, called
`hash_serialized` at its use sites in `run.rs`): serialize the configuration
into a byte buffer with `ser` and apply the blake3 hex digest to the buffer.
`ser` and `digest` are parameters standing for `serde_json::to_writer` and the
external `blake3::hash(..).to_hex()`. -/
def hashSerialized {σ : Type} (digest : List Nat → String) (ser : σ → List Nat)
    (c : σ) : String :=
  digest (ser c)

/-! ## The execution loop of `run_single` (`run.rs` lines 76-103) -/

/-- `run_configuration` (`run.rs` lines 107-118): persist the configuration
(modelled as always succeeding), then `pre_run`, `run`, `post_run` in order;
the first error aborts the remaining steps and is returned. -/
def runConfiguration {σ ε : Type} (preRun runStep postRun : σ → Except ε Unit)
    (c : σ) : Except ε Unit := do
  preRun c
  runStep c
  postRun c

/-- The directory name a configuration ends under after its iteration of the
execution loop: `<hash>` on success, `<hash>.failed` on error. -/
def terminalName {σ ε : Type} (hash : σ → String) (runCfg : σ → Except ε Unit)
    (c : σ) : String :=
  match runCfg c with
  | .ok _ => hash c
  | .error _ => failedName (hash c)

/-- One iteration of the execution loop of `run_single` (`run.rs` lines
76-103): create `<hash>.running` (`create_dir_all`: a no-op when the directory
already exists), run the configuration, and rename the running directory to
`<hash>` on success or `<hash>.failed` on error. -/
def stepDir {σ ε : Type} (hash : σ → String) (runCfg : σ → Except ε Unit)
    (fs : List String) (c : σ) : List String :=
  let fs1 := List.insert (runningName (hash c)) fs
  match runCfg c with
  | .ok _ => List.insert (hash c) (fs1.erase (runningName (hash c)))
  | .error _ => List.insert (failedName (hash c)) (fs1.erase (runningName (hash c)))

/-- The whole execution loop over the work list. -/
def runPass {σ ε : Type} (hash : σ → String) (runCfg : σ → Except ε Unit)
    (fs : List String) (toRun : List σ) : List String :=
  toRun.foldl (stepDir hash runCfg) fs

/-- The directory state after the scheduler is interrupted while processing
configuration `c` (position `k` of the work list): the first `k`
configurations completed their iteration, `<hash c>.running` was just created,
and the process stopped before the commit rename. -/
def crashAfterCreate {σ ε : Type} (hash : σ → String) (runCfg : σ → Except ε Unit)
    (fs : List String) (toRun : List σ) (c : σ) (k : Nat) : List String :=
  List.insert (runningName (hash c)) (runPass hash runCfg fs (toRun.take k))

theorem insert_erase_self {a : String} {l : List String} :
    (List.insert a l).erase a = l.erase a := by
  by_cases h : a ∈ l
  · rw [List.insert_of_mem h]
  · rw [List.insert_of_not_mem h, List.erase_cons_head,
      List.erase_of_not_mem h]

theorem stepDir_eq {σ ε : Type} (hash : σ → String) (runCfg : σ → Except ε Unit)
    (fs : List String) (c : σ) :
    stepDir hash runCfg fs c
      = List.insert (terminalName hash runCfg c)
          (fs.erase (runningName (hash c))) := by
  unfold stepDir terminalName
  cases runCfg c <;> simp [insert_erase_self]

theorem mem_stepDir_of_mem {σ ε : Type} {hash : σ → String}
    {runCfg : σ → Except ε Unit} {fs : List String} {c : σ} {x : String}
    (hx : x ∈ fs) (hne : x ≠ runningName (hash c)) :
    x ∈ stepDir hash runCfg fs c := by
  rw [stepDir_eq]
  exact List.mem_insert_of_mem ((List.mem_erase_of_ne hne).mpr hx)

theorem mem_of_mem_stepDir {σ ε : Type} {hash : σ → String}
    {runCfg : σ → Except ε Unit} {fs : List String} {c : σ} {x : String}
    (hx : x ∈ stepDir hash runCfg fs c) :
    x = terminalName hash runCfg c ∨ x ∈ fs := by
  rw [stepDir_eq] at hx
  rcases List.mem_insert_iff.mp hx with h | h
  · exact Or.inl h
  · exact Or.inr (List.mem_of_mem_erase h)

theorem terminalName_mem_stepDir {σ ε : Type} (hash : σ → String)
    (runCfg : σ → Except ε Unit) (fs : List String) (c : σ) :
    terminalName hash runCfg c ∈ stepDir hash runCfg fs c := by
  rw [stepDir_eq]
  exact List.mem_insert_self _ _

theorem mem_runPass_of_mem {σ ε : Type} {hash : σ → String}
    {runCfg : σ → Except ε Unit} {x : String} :
    ∀ {l : List σ} {fs : List String}, x ∈ fs →
      (∀ c ∈ l, x ≠ runningName (hash c)) → x ∈ runPass hash runCfg fs l := by
  intro l
  induction l with
  | nil => intro fs hx _; exact hx
  | cons c l ih =>
    intro fs hx hne
    exact ih (mem_stepDir_of_mem hx (hne c (List.mem_cons_self ..)))
      fun d hd => hne d (List.mem_cons_of_mem _ hd)

theorem not_mem_runPass {σ ε : Type} {hash : σ → String}
    {runCfg : σ → Except ε Unit} {x : String} :
    ∀ {l : List σ} {fs : List String}, x ∉ fs →
      (∀ c ∈ l, x ≠ terminalName hash runCfg c) →
      x ∉ runPass hash runCfg fs l := by
  intro l
  induction l with
  | nil => intro fs hx _; exact hx
  | cons c l ih =>
    intro fs hx hne
    refine ih ?_ fun d hd => hne d (List.mem_cons_of_mem _ hd)
    intro hmem
    rcases mem_of_mem_stepDir hmem with h | h
    · exact hne c (List.mem_cons_self ..) h
    · exact hx h

theorem mem_runPass_cases {σ ε : Type} {hash : σ → String}
    {runCfg : σ → Except ε Unit} {x : String} :
    ∀ {l : List σ} {fs : List String}, x ∈ runPass hash runCfg fs l →
      x ∈ fs ∨ ∃ c ∈ l, x = terminalName hash runCfg c := by
  intro l
  induction l with
  | nil => intro fs hx; exact Or.inl hx
  | cons c l ih =>
    intro fs hx
    rcases ih hx with h | ⟨d, hd, he⟩
    · rcases mem_of_mem_stepDir h with h | h
      · exact Or.inr ⟨c, List.mem_cons_self .., h⟩
      · exact Or.inl h
    · exact Or.inr ⟨d, List.mem_cons_of_mem _ hd, he⟩

theorem terminalName_mem_runPass {σ ε : Type} {hash : σ → String}
    {runCfg : σ → Except ε Unit} {c : σ} :
    ∀ {l : List σ} {fs : List String}, c ∈ l →
      (∀ d ∈ l, terminalName hash runCfg c ≠ runningName (hash d)) →
      terminalName hash runCfg c ∈ runPass hash runCfg fs l := by
  intro l
  induction l with
  | nil => intro fs h; simp at h
  | cons d l ih =>
    intro fs hc hne
    have hunfold : runPass hash runCfg fs (d :: l)
        = runPass hash runCfg (stepDir hash runCfg fs d) l := rfl
    rw [hunfold]
    rcases List.mem_cons.mp hc with h | h
    · subst h
      exact mem_runPass_of_mem (terminalName_mem_stepDir ..)
        fun d' hd' => hne d' (List.mem_cons_of_mem _ hd')
    · exact ih h fun d' hd' => hne d' (List.mem_cons_of_mem _ hd')

theorem enumerateConfigs_toRun_pairwise {σ : Type} (hash : σ → String)
    (fs : List String) (cs : List σ) :
    ((enumerateConfigs hash fs cs).toRun).Pairwise fun a b => hash a ≠ hash b := by
  rw [enumerateConfigs_toRun]
  exact List.Pairwise.sublist (List.filter_sublist _) (dedupKeepFirst_pairwise hash cs)

theorem mem_enumerateConfigs_toRun {σ : Type} {hash : σ → String}
    {fs : List String} {cs : List σ} {c : σ} :
    c ∈ (enumerateConfigs hash fs cs).toRun
      ↔ c ∈ dedupKeepFirst hash cs ∧ hash c ∉ fs := by
  rw [enumerateConfigs_toRun]
  simp [List.mem_filter]

/-! ## Claims about the scheduler -/

/-- C2 (confirmed): the content hash is a function of the canonical serialized
bytes alone: two configurations with identical serialization hash identically,
whatever their in-memory representation (`ExperimentConfiguration::hash`,
`lib.rs` lines 19-24).  The statement is universally quantified over the
digest, so the hash can depend on nothing but the serialized byte buffer. -/
theorem claim2_hash_depends_only_on_serialization {σ : Type}
    (digest : List Nat → String) (ser : σ → List Nat) (a b : σ)
    (h : ser a = ser b) :
    hashSerialized digest ser a = hashSerialized digest ser b := by
  unfold hashSerialized
  rw [h]

theorem claim2_witness :
    hashSerialized (fun l => toString l.length) (fun n : Nat => [n % 1]) 5
      = hashSerialized (fun l => toString l.length) (fun n : Nat => [n % 1]) 7 :=
  claim2_hash_depends_only_on_serialization _ _ 5 7 rfl

/-- C3 (confirmed): enumeration deduplicates by hash keeping the first
occurrence (`run.rs` lines 54-67): the work list is the first occurrence of
each hash, filtered by the skip check; the duplicate count is the number of
later occurrences of already-seen hashes; no hash is queued twice; and an
identically-serializing pair yields one execution and one duplicate. -/
theorem claim3_dedup_by_hash {σ : Type} (digest : List Nat → String)
    (ser : σ → List Nat) (fs : List String) (cs : List σ) :
    ((enumerateConfigs (hashSerialized digest ser) fs cs).toRun
        = (dedupKeepFirst (hashSerialized digest ser) cs).filter
            fun c => decide (hashSerialized digest ser c ∉ fs))
    ∧ ((enumerateConfigs (hashSerialized digest ser) fs cs).duplicates
        = cs.length - (dedupKeepFirst (hashSerialized digest ser) cs).length)
    ∧ ((enumerateConfigs (hashSerialized digest ser) fs cs).toRun).Pairwise
        (fun a b => hashSerialized digest ser a ≠ hashSerialized digest ser b)
    ∧ ∀ a b : σ, ser a = ser b → hashSerialized digest ser a ∉ fs →
        (enumerateConfigs (hashSerialized digest ser) fs [a, b]).toRun = [a]
        ∧ (enumerateConfigs (hashSerialized digest ser) fs [a, b]).duplicates = 1 := by
  refine ⟨enumerateConfigs_toRun .., enumerateConfigs_duplicates ..,
    enumerateConfigs_toRun_pairwise .., ?_⟩
  intro a b hser hnot
  have hba : hashSerialized digest ser b = hashSerialized digest ser a := by
    unfold hashSerialized
    rw [hser]
  constructor <;> simp [enumerateConfigs, enumerateAux, hnot, hba]

theorem claim3_witness :
    (enumerateConfigs
        (hashSerialized (fun l => toString l.length) (fun n : Nat => [n % 1])) []
        [5, 7]).toRun = [5]
    ∧ (enumerateConfigs
        (hashSerialized (fun l => toString l.length) (fun n : Nat => [n % 1])) []
        [5, 7]).duplicates = 1 :=
  (claim3_dedup_by_hash (fun l => toString l.length) (fun n : Nat => [n % 1])
    [] [5, 7]).2.2.2 5 7 rfl (by simp [hashSerialized])

/-- C4 (confirmed): idempotent scheduling.  Starting from a results directory
holding none of the hashes, with no failures: the first pass runs exactly the
first occurrence of every distinct hash (each exactly once), and a second
enumeration of the same configurations against the resulting directory state
queues nothing — every hash now has its completed `<hash>` directory
(`run.rs` lines 60-65 and 76-103). -/
theorem claim4_second_pass_runs_nothing {σ ε : Type} (hash : σ → String)
    (runCfg : σ → Except ε Unit) (fs0 : List String) (cs : List σ)
    (hdot : ∀ c ∈ cs, noDot (hash c))
    (hfresh : ∀ c ∈ cs, hash c ∉ fs0)
    (hok : ∀ c, runCfg c = Except.ok ()) :
    (enumerateConfigs hash fs0 cs).toRun = dedupKeepFirst hash cs
    ∧ ((enumerateConfigs hash fs0 cs).toRun).Pairwise
        (fun a b => hash a ≠ hash b)
    ∧ (∀ c ∈ cs, ∃ d ∈ (enumerateConfigs hash fs0 cs).toRun, hash d = hash c)
    ∧ (enumerateConfigs hash
        (runPass hash runCfg fs0 (enumerateConfigs hash fs0 cs).toRun)
        cs).toRun = [] := by
  have h1 : (enumerateConfigs hash fs0 cs).toRun = dedupKeepFirst hash cs := by
    rw [enumerateConfigs_toRun]
    apply List.filter_eq_self.mpr
    intro c hc
    exact decide_eq_true (hfresh c (mem_of_mem_dedupKeepFirst hash hc))
  refine ⟨h1, enumerateConfigs_toRun_pairwise .., ?_, ?_⟩
  · intro c hc
    rw [h1]
    exact dedupKeepFirst_covers hash cs c hc
  · rw [enumerateConfigs_toRun]
    apply List.filter_eq_nil_iff.mpr
    intro d hd
    simp only [decide_eq_true_eq, not_not]
    have hdcs : d ∈ cs := mem_of_mem_dedupKeepFirst hash hd
    have hterm : terminalName hash runCfg d = hash d := by
      unfold terminalName
      rw [hok d]
    have h2 : terminalName hash runCfg d
        ∈ runPass hash runCfg fs0 (enumerateConfigs hash fs0 cs).toRun :=
      terminalName_mem_runPass (h1 ▸ hd)
        fun d' _ => hterm ▸ noDot_ne_runningName (hdot d hdcs) (hash d')
    rw [hterm] at h2
    exact h2

theorem claim4_witness :
    (enumerateConfigs (fun s : String => s)
      (runPass (fun s : String => s)
        (fun _ => (Except.ok () : Except String Unit)) []
        (enumerateConfigs (fun s : String => s) [] ["a", "b", "a"]).toRun)
      ["a", "b", "a"]).toRun = [] :=
  (claim4_second_pass_runs_nothing (fun s : String => s)
    (fun _ => (Except.ok () : Except String Unit)) [] ["a", "b", "a"]
    (by decide) (by decide) (fun _ => rfl)).2.2.2

/-- C5 (confirmed): per-configuration failure isolation (`run.rs` lines
76-103).  Every queued configuration is processed regardless of other
configurations' outcomes; one whose `pre_run`/`run`/`post_run` pipeline errors
ends under `<hash>.failed` and not under `<hash>`, while a successful one ends
under `<hash>`.  In particular, for three queued configurations of which the
second fails, one pass ends with `<hash1>`, `<hash2>.failed`, `<hash3>`. -/
theorem claim5_failure_is_isolated {σ ε : Type} (hash : σ → String)
    (preRun runStep postRun : σ → Except ε Unit) (fs0 : List String)
    (cs : List σ) (hdot : ∀ c ∈ cs, noDot (hash c)) :
    ∀ c ∈ (enumerateConfigs hash fs0 cs).toRun,
      (∀ e : ε, runConfiguration preRun runStep postRun c = Except.error e →
        failedName (hash c)
            ∈ runPass hash (runConfiguration preRun runStep postRun) fs0
                (enumerateConfigs hash fs0 cs).toRun
        ∧ hash c
            ∉ runPass hash (runConfiguration preRun runStep postRun) fs0
                (enumerateConfigs hash fs0 cs).toRun)
      ∧ (runConfiguration preRun runStep postRun c = Except.ok () →
        hash c ∈ runPass hash (runConfiguration preRun runStep postRun) fs0
            (enumerateConfigs hash fs0 cs).toRun) := by
  intro c hc
  obtain ⟨hcdd, hcfs⟩ := mem_enumerateConfigs_toRun.mp hc
  have hccs : c ∈ cs := mem_of_mem_dedupKeepFirst hash hcdd
  have hpw := enumerateConfigs_toRun_pairwise hash fs0 cs
  have hne : ∀ d ∈ (enumerateConfigs hash fs0 cs).toRun, d ≠ c →
      hash d ≠ hash c :=
    fun d hd hdc => hpw.forall (fun _ _ h => h.symm) hd hc hdc
  have hmemcs : ∀ d ∈ (enumerateConfigs hash fs0 cs).toRun, d ∈ cs := fun d hd =>
    mem_of_mem_dedupKeepFirst hash (mem_enumerateConfigs_toRun.mp hd).1
  constructor
  · intro e he
    have hterm : terminalName hash (runConfiguration preRun runStep postRun) c
        = failedName (hash c) := by
      unfold terminalName
      rw [he]
    constructor
    · have h2 : terminalName hash (runConfiguration preRun runStep postRun) c
          ∈ runPass hash (runConfiguration preRun runStep postRun) fs0
              (enumerateConfigs hash fs0 cs).toRun :=
        terminalName_mem_runPass hc fun d hd =>
          hterm ▸ (runningName_ne_failedName (hdot d (hmemcs d hd))
            (hdot c hccs)).symm
      rw [hterm] at h2
      exact h2
    · refine not_mem_runPass hcfs fun d hd => ?_
      cases hrun : runConfiguration preRun runStep postRun d with
      | ok u =>
        have htd : terminalName hash (runConfiguration preRun runStep postRun) d
            = hash d := by
          unfold terminalName
          rw [hrun]
        rw [htd]
        by_cases hdc : d = c
        · rw [hdc] at hrun
          exact absurd (he.symm.trans hrun) (by simp)
        · exact (hne d hd hdc).symm
      | error e' =>
        have htd : terminalName hash (runConfiguration preRun runStep postRun) d
            = failedName (hash d) := by
          unfold terminalName
          rw [hrun]
        rw [htd]
        exact noDot_ne_failedName (hdot c hccs) (hash d)
  · intro hok
    have hterm : terminalName hash (runConfiguration preRun runStep postRun) c
        = hash c := by
      unfold terminalName
      rw [hok]
    have h2 : terminalName hash (runConfiguration preRun runStep postRun) c
        ∈ runPass hash (runConfiguration preRun runStep postRun) fs0
            (enumerateConfigs hash fs0 cs).toRun :=
      terminalName_mem_runPass hc fun d hd =>
        hterm ▸ noDot_ne_runningName (hdot c hccs) (hash d)
    rw [hterm] at h2
    exact h2

theorem claim5_witness :
    (failedName "b"
        ∈ runPass (fun s : String => s)
            (runConfiguration (fun _ => Except.ok ())
              (fun c => if c = "b" then Except.error "boom" else Except.ok ())
              (fun _ => Except.ok ())) []
            (enumerateConfigs (fun s : String => s) [] ["a", "b", "c"]).toRun
      ∧ "b"
          ∉ runPass (fun s : String => s)
              (runConfiguration (fun _ => Except.ok ())
                (fun c => if c = "b" then Except.error "boom" else Except.ok ())
                (fun _ => Except.ok ())) []
              (enumerateConfigs (fun s : String => s) [] ["a", "b", "c"]).toRun)
    ∧ "a"
        ∈ runPass (fun s : String => s)
            (runConfiguration (fun _ => Except.ok ())
              (fun c => if c = "b" then Except.error "boom" else Except.ok ())
              (fun _ => Except.ok ())) []
            (enumerateConfigs (fun s : String => s) [] ["a", "b", "c"]).toRun
    ∧ "c"
        ∈ runPass (fun s : String => s)
            (runConfiguration (fun _ => Except.ok ())
              (fun c => if c = "b" then Except.error "boom" else Except.ok ())
              (fun _ => Except.ok ())) []
            (enumerateConfigs (fun s : String => s) [] ["a", "b", "c"]).toRun :=
  ⟨(claim5_failure_is_isolated (fun s : String => s) _ _ _ [] ["a", "b", "c"]
      (by decide) "b" (by decide)).1 "boom" rfl,
    (claim5_failure_is_isolated (fun s : String => s) _ _ _ [] ["a", "b", "c"]
      (by decide) "a" (by decide)).2 rfl,
    (claim5_failure_is_isolated (fun s : String => s) _ _ _ [] ["a", "b", "c"]
      (by decide) "c" (by decide)).2 rfl⟩

/-- C1 counterexample.  The claim asserts that after a crash between creating
`<hash>.running` and the commit rename, no terminal directory (`<hash>` or
`<hash>.failed`) exists for that hash.  Take one configuration with hash `h`
and a results directory already holding `h.failed` from an earlier failed
pass.  The configuration is queued again (the skip check only tests `h`), and
in the crash state — running marker created, commit rename not reached — the
terminal directory `h.failed` does exist.  The rescheduling half of the claim
is retained by `claim1_amended`. -/
theorem claim1_counterexample :
    (enumerateConfigs (fun _ : Unit => "h") [failedName "h"] [()]).toRun = [()]
    ∧ failedName "h"
        ∈ crashAfterCreate (fun _ : Unit => "h")
            (fun _ => (Except.ok () : Except Unit Unit)) [failedName "h"]
            ((enumerateConfigs (fun _ : Unit => "h") [failedName "h"] [()]).toRun)
            () 0 := by
  constructor
  · rfl
  · decide

/-- C1 amended (proved): if the scheduler is interrupted after creating the
running marker of the `k`-th queued configuration `c` and before its commit
rename, then no completed directory `<hash c>` exists, a `<hash c>.failed`
directory exists only if it was already present before the pass, and a later
scheduler run over the same configuration list queues `c` again instead of
skipping it (`run.rs` lines 60-65, 76-103). -/
theorem claim1_amended {σ ε : Type} (hash : σ → String)
    (runCfg : σ → Except ε Unit) (fs0 : List String) (cs : List σ)
    (hdot : ∀ c ∈ cs, noDot (hash c)) (k : Nat)
    (hk : k < (enumerateConfigs hash fs0 cs).toRun.length) :
    hash ((enumerateConfigs hash fs0 cs).toRun.get ⟨k, hk⟩)
      ∉ crashAfterCreate hash runCfg fs0 (enumerateConfigs hash fs0 cs).toRun
          ((enumerateConfigs hash fs0 cs).toRun.get ⟨k, hk⟩) k
    ∧ (failedName (hash ((enumerateConfigs hash fs0 cs).toRun.get ⟨k, hk⟩))
          ∈ crashAfterCreate hash runCfg fs0 (enumerateConfigs hash fs0 cs).toRun
              ((enumerateConfigs hash fs0 cs).toRun.get ⟨k, hk⟩) k
        ↔ failedName (hash ((enumerateConfigs hash fs0 cs).toRun.get ⟨k, hk⟩))
            ∈ fs0)
    ∧ ((enumerateConfigs hash fs0 cs).toRun.get ⟨k, hk⟩)
        ∈ (enumerateConfigs hash
            (crashAfterCreate hash runCfg fs0
              (enumerateConfigs hash fs0 cs).toRun
              ((enumerateConfigs hash fs0 cs).toRun.get ⟨k, hk⟩) k)
            cs).toRun := by
  set toRun := (enumerateConfigs hash fs0 cs).toRun with htoRun
  set c := toRun.get ⟨k, hk⟩ with hcdef
  have hc : c ∈ toRun := List.get_mem ..
  obtain ⟨hcdd, hcfs⟩ := mem_enumerateConfigs_toRun.mp (htoRun ▸ hc)
  have hccs : c ∈ cs := mem_of_mem_dedupKeepFirst hash hcdd
  have hmemcs : ∀ d ∈ toRun, d ∈ cs := fun d hd =>
    mem_of_mem_dedupKeepFirst hash (mem_enumerateConfigs_toRun.mp (htoRun ▸ hd)).1
  have hpw : toRun.Pairwise fun a b => hash a ≠ hash b :=
    htoRun ▸ enumerateConfigs_toRun_pairwise hash fs0 cs
  -- every configuration processed before the crash has a different hash
  have hsep : ∀ d ∈ toRun.take k, hash d ≠ hash c := by
    have hsplit : toRun = toRun.take k ++ toRun.drop k :=
      (List.take_append_drop k toRun).symm
    have hpw2 := hsplit ▸ hpw
    have hcdrop : c ∈ toRun.drop k := by
      have : toRun.get ⟨k, hk⟩ :: toRun.drop (k + 1) = toRun.drop k :=
        List.getElem_cons_drop toRun k hk
      rw [← this]
      exact List.mem_cons_self ..
    intro d hd
    exact (List.pairwise_append.mp hpw2).2.2 d hd c hcdrop
  have htake : ∀ d ∈ toRun.take k, d ∈ cs := fun d hd =>
    hmemcs d (List.take_subset k toRun hd)
  have hnotmem : hash c
      ∉ crashAfterCreate hash runCfg fs0 toRun c k := by
    unfold crashAfterCreate
    intro hmem
    rcases List.mem_insert_iff.mp hmem with h | h
    · exact noDot_ne_runningName (hdot c hccs) (hash c) h
    · refine not_mem_runPass hcfs ?_ h
      intro d hd
      unfold terminalName
      cases hrun : runCfg d with
      | ok u => exact fun e => hsep d hd e.symm
      | error e' => exact noDot_ne_failedName (hdot c hccs) (hash d)
  refine ⟨hnotmem, ⟨?_, ?_⟩, ?_⟩
  · -- a `.failed` directory in the crash state was already there before
    unfold crashAfterCreate
    intro hmem
    rcases List.mem_insert_iff.mp hmem with h | h
    · exact absurd h.symm (runningName_ne_failedName (hdot c hccs) (hdot c hccs))
    · rcases mem_runPass_cases h with h | ⟨d, hd, he⟩
      · exact h
      · exfalso
        revert he
        unfold terminalName
        cases hrun : runCfg d with
        | ok u =>
          exact fun he =>
            noDot_ne_failedName (hdot d (htake d hd)) (hash c) he.symm
        | error e' =>
          exact fun he => hsep d hd (failedName_inj he.symm)
  · -- and it is preserved into the crash state
    intro hmem
    unfold crashAfterCreate
    refine List.mem_insert_of_mem (mem_runPass_of_mem hmem ?_)
    intro d hd
    exact (runningName_ne_failedName (hdot d (htake d hd)) (hdot c hccs)).symm
  · -- the interrupted configuration is queued again by a later run
    exact mem_enumerateConfigs_toRun.mpr ⟨hcdd, hnotmem⟩

theorem claim1_witness :
    "h" ∉ crashAfterCreate (fun _ : Unit => "h")
        (fun _ => (Except.ok () : Except Unit Unit)) []
        ((enumerateConfigs (fun _ : Unit => "h") [] [()]).toRun) () 0
    ∧ (failedName "h"
          ∈ crashAfterCreate (fun _ : Unit => "h")
              (fun _ => (Except.ok () : Except Unit Unit)) []
              ((enumerateConfigs (fun _ : Unit => "h") [] [()]).toRun) () 0
        ↔ failedName "h" ∈ ([] : List String))
    ∧ () ∈ (enumerateConfigs (fun _ : Unit => "h")
          (crashAfterCreate (fun _ : Unit => "h")
            (fun _ => (Except.ok () : Except Unit Unit)) []
            ((enumerateConfigs (fun _ : Unit => "h") [] [()]).toRun) () 0)
          [()]).toRun :=
  claim1_amended (fun _ : Unit => "h")
    (fun _ => (Except.ok () : Except Unit Unit)) [] [()] (by decide) 0
    (by decide)

/-- C6 counterexample.  The claim asserts that a configuration whose hash has
a `<hash>.failed` directory (and no `<hash>` directory) is not executed by a
later pass.  But the skip check of `run_single` (`run.rs` lines 60-65) tests
only the completed directory `<hash>`: with the results directory holding
exactly `h.failed`, the single configuration with hash `h` is queued and
executed, ending under the completed directory `h`. -/
theorem claim6_counterexample :
    (enumerateConfigs (fun _ : Unit => "h") [failedName "h"] [()]).toRun = [()]
    ∧ "h" ∉ [failedName "h"]
    ∧ "h" ∈ runPass (fun _ : Unit => "h")
        (fun _ => (Except.ok () : Except Unit Unit)) [failedName "h"]
        ((enumerateConfigs (fun _ : Unit => "h") [failedName "h"] [()]).toRun) := by
  refine ⟨rfl, by decide, by decide⟩

/-- C6 amended (proved): `.failed` is not terminal for scheduling purposes.
A first-occurrence configuration whose completed directory `<hash>` is absent
is queued for execution even when `<hash>.failed` is present: the skip check
of `run_single` tests only `<hash>`. -/
theorem claim6_amended {σ : Type} (hash : σ → String) (fs : List String)
    (cs : List σ) (c : σ) (hfirst : c ∈ dedupKeepFirst hash cs)
    (hnotdone : hash c ∉ fs) (hfailed : failedName (hash c) ∈ fs) :
    c ∈ (enumerateConfigs hash fs cs).toRun :=
  mem_enumerateConfigs_toRun.mpr ⟨hfirst, hnotdone⟩

theorem claim6_witness :
    "x" ∈ (enumerateConfigs (fun s : String => s) [failedName "x"] ["x"]).toRun :=
  claim6_amended (fun s : String => s) [failedName "x"] ["x"] "x" (by decide)
    (by decide) (by decide)

/-! ## The docker runner (`src/docker_runner.rs`) -/

/-- `ContainerConfig` (`docker_runner.rs` lines 724-740).  `f64` is modelled
as `Float`, `i64` as `Int`, `Vec` as `List`. -/
structure ContainerConfig where
  name : String
  image_name : String
  image_tag : String
  pull : Bool
  network : Option String
  network_subnet : Option String
  command : Option (List String)
  ports : Option (List (String × String))
  capabilities : Option (List String)
  cpus : Option Float
  memory : Option Int
  tmpfs : List String
  volumes : List (String × String)

/-- The network-relevant state of one `Runner` plus the container engine:
`world` is the list of network names the engine currently has (the result of
`list_networks`), `created` is the runner's `self.networks` — the networks
this instance created itself. -/
structure NetState where
  world : List String
  created : List String
deriving DecidableEq

/-- The network-provisioning part of `Runner::add_container`
(`docker_runner.rs` lines 79-113): when the config names a network, list
networks by exact name; only when none exists, create it and push its name
onto `self.networks`.  (The optional fixed subnet only affects the created
network's IPAM config, not which networks exist.) -/
def addContainerNet (config : ContainerConfig) (s : NetState) : NetState :=
  match config.network with
  | none => s
  | some n =>
    if n ∈ s.world then s
    else ⟨List.insert n s.world, s.created ++ [n]⟩

/-- A sequence of `add_container` calls on one runner. -/
def addContainersNet (configs : List ContainerConfig) (s : NetState) : NetState :=
  configs.foldl (fun t config => addContainerNet config t) s

/-- The network-teardown part of `Runner::finish` (`docker_runner.rs` lines
288-293): remove exactly the networks in `self.networks`, in order;
`remove_network` errors are logged and ignored, so removing an absent name is
a no-op (`List.erase`). -/
def finishNetworks (s : NetState) : List String :=
  s.created.foldl (fun w n => w.erase n) s.world

/-- Invariant of the network state maintained by `add_container`, relative to
the engine state `w0` that existed before the runner made any calls. -/
def NetInv (w0 : List String) (s : NetState) : Prop :=
  s.world.Nodup ∧ s.created.Nodup ∧ (∀ n ∈ s.created, n ∈ s.world)
    ∧ ∀ n ∈ w0, n ∈ s.world ∧ n ∉ s.created

theorem addContainerNet_inv {w0 : List String} {s : NetState}
    (h : NetInv w0 s) (config : ContainerConfig) :
    NetInv w0 (addContainerNet config s) := by
  obtain ⟨hw, hc, hcw, h0⟩ := h
  cases hcfg : config.network with
  | none =>
    simp only [addContainerNet, hcfg]
    exact ⟨hw, hc, hcw, h0⟩
  | some n =>
    simp only [addContainerNet, hcfg]
    by_cases hn : n ∈ s.world
    · rw [if_pos hn]
      exact ⟨hw, hc, hcw, h0⟩
    · rw [if_neg hn, List.insert_of_not_mem hn]
      refine ⟨List.nodup_cons.mpr ⟨hn, hw⟩, ?_, ?_, ?_⟩
      · rw [List.nodup_append]
        exact ⟨hc, List.nodup_singleton n,
          fun m hm hm' => hn ((List.mem_singleton.mp hm') ▸ hcw m hm)⟩
      · intro m hm
        rcases List.mem_append.mp hm with hm | hm
        · exact List.mem_cons_of_mem _ (hcw m hm)
        · rw [List.mem_singleton.mp hm]
          exact List.mem_cons_self ..
      · intro m hm
        refine ⟨List.mem_cons_of_mem _ (h0 m hm).1, fun hmem => ?_⟩
        rcases List.mem_append.mp hmem with hmem | hmem
        · exact (h0 m hm).2 hmem
        · exact hn (List.mem_singleton.mp hmem ▸ (h0 m hm).1)

theorem addContainersNet_inv {w0 : List String} :
    ∀ {configs : List ContainerConfig} {s : NetState}, NetInv w0 s →
      NetInv w0 (addContainersNet configs s) := by
  intro configs
  induction configs with
  | nil => intro s h; exact h
  | cons config configs ih =>
    intro s h
    exact ih (addContainerNet_inv h config)

theorem mem_foldl_erase_of_ne {n : String} :
    ∀ {l w : List String}, n ∈ w → (∀ m ∈ l, n ≠ m) →
      n ∈ l.foldl (fun w' m => w'.erase m) w := by
  intro l
  induction l with
  | nil => intro w hw _; exact hw
  | cons m l ih =>
    intro w hw hne
    exact ih ((List.mem_erase_of_ne (hne m (List.mem_cons_self ..))).mpr hw)
      fun m' hm' => hne m' (List.mem_cons_of_mem _ hm')

theorem not_mem_foldl_erase_of_not_mem {n : String} :
    ∀ {l w : List String}, n ∉ w → n ∉ l.foldl (fun w' m => w'.erase m) w := by
  intro l
  induction l with
  | nil => intro w hw; exact hw
  | cons m l ih =>
    intro w hw
    exact ih fun hmem => hw (List.mem_of_mem_erase hmem)

theorem not_mem_foldl_erase_of_mem {n : String} :
    ∀ {l w : List String}, w.Nodup → n ∈ l →
      n ∉ l.foldl (fun w' m => w'.erase m) w := by
  intro l
  induction l with
  | nil => intro w _ h; simp at h
  | cons m l ih =>
    intro w hw hn
    have hstep : (m :: l).foldl (fun w' m' => w'.erase m') w
        = l.foldl (fun w' m' => w'.erase m') (w.erase m) := rfl
    rw [hstep]
    rcases List.mem_cons.mp hn with h | h
    · subst h
      exact not_mem_foldl_erase_of_not_mem hw.not_mem_erase
    · exact ih (hw.erase m) h

/-- C8 (confirmed): network cleanup scope (`docker_runner.rs` lines 79-113 and
288-293).  For any engine state `w0` (no duplicate names) and any sequence of
`add_container` calls on a fresh runner: every network that already existed
survives `finish`, and every network the runner created (tracked in
`self.networks`) is removed by `finish`. -/
theorem claim8_network_cleanup_scope (w0 : List String) (hw0 : w0.Nodup)
    (configs : List ContainerConfig) :
    (∀ n ∈ w0, n ∈ finishNetworks (addContainersNet configs ⟨w0, []⟩))
    ∧ ∀ n ∈ (addContainersNet configs ⟨w0, []⟩).created,
        n ∉ finishNetworks (addContainersNet configs ⟨w0, []⟩) := by
  have hinv : NetInv w0 (addContainersNet configs ⟨w0, []⟩) :=
    addContainersNet_inv ⟨hw0, List.nodup_nil, by simp, fun n hn => ⟨hn, by simp⟩⟩
  obtain ⟨hw, hc, hcw, h0⟩ := hinv
  constructor
  · intro n hn
    exact mem_foldl_erase_of_ne (h0 n hn).1
      fun m hm e => (h0 n hn).2 (e ▸ hm)
  · intro n hn
    exact not_mem_foldl_erase_of_mem hw hn

theorem claim8_witness :
    (∀ n ∈ ["preexisting"], n ∈ finishNetworks (addContainersNet
      [⟨"c1", "nginx", "alpine", false, some "exp-net", none, none, none, none,
        none, none, [], []⟩] ⟨["preexisting"], []⟩))
    ∧ ∀ n ∈ (addContainersNet
        [⟨"c1", "nginx", "alpine", false, some "exp-net", none, none, none, none,
          none, none, [], []⟩] ⟨["preexisting"], []⟩).created,
        n ∉ finishNetworks (addContainersNet
          [⟨"c1", "nginx", "alpine", false, some "exp-net", none, none, none,
            none, none, none, [], []⟩] ⟨["preexisting"], []⟩) :=
  claim8_network_cleanup_scope ["preexisting"] (by decide) _

/-! ## `Runner::finish` and the collector shutdown barrier
(`docker_runner.rs` lines 140-251 and 254-294)

`finish` is sequential code: it sends the shutdown signal on the watch
channel once, `join_all`s every collector task spawned by `add_container`,
and only then stops/removes the containers and removes the networks.  We model
the concurrent execution of `finish` together with the collector tasks as a
small labelled transition system: collector tasks may append to their
telemetry files (`write`) or terminate (`taskExit`, on observing the shutdown
signal or on stream exhaustion) at any point while they are running; the
`finish` control flow advances through its phases in program order, and
`join_all` completes only once every task has terminated. -/

inductive FinPhase where
  | start
  | sent
  | joined
  | done
deriving DecidableEq

structure RunnerState where
  tasks : List Bool
  phase : FinPhase
deriving DecidableEq

inductive REv where
  | write (i : Nat)
  | taskExit (i : Nat)
  | send
  | join
  | stopContainer (j : Nat)
  | removeContainer (j : Nat)
  | removeNetwork (j : Nat)
  | ret
deriving DecidableEq

def isTeardown : REv → Bool
  | .stopContainer _ => true
  | .removeContainer _ => true
  | .removeNetwork _ => true
  | .ret => true
  | _ => false

/-- One step of the system.  `write i`/`taskExit i` are actions of a running
collector task; `send` is `self.end_tx.send(())` (only possible once, at the
start of `finish`); `join` is the completion of `join_all(self.futures)`,
which requires every task to have stopped; the teardown events
(`stop_container`, `remove_container`, `remove_network`) are only possible
after the join; `ret` is `finish` returning. -/
inductive RStep : RunnerState → REv → RunnerState → Prop where
  | write (s : RunnerState) (i : Nat) :
      s.tasks.get? i = some true → RStep s (.write i) s
  | taskExit (s : RunnerState) (i : Nat) :
      s.tasks.get? i = some true →
      RStep s (.taskExit i) ⟨s.tasks.set i false, s.phase⟩
  | send (s : RunnerState) :
      s.phase = .start → RStep s .send ⟨s.tasks, .sent⟩
  | join (s : RunnerState) :
      s.phase = .sent → (∀ b ∈ s.tasks, b = false) →
      RStep s .join ⟨s.tasks, .joined⟩
  | stopContainer (s : RunnerState) (j : Nat) :
      s.phase = .joined → RStep s (.stopContainer j) s
  | removeContainer (s : RunnerState) (j : Nat) :
      s.phase = .joined → RStep s (.removeContainer j) s
  | removeNetwork (s : RunnerState) (j : Nat) :
      s.phase = .joined → RStep s (.removeNetwork j) s
  | ret (s : RunnerState) :
      s.phase = .joined → RStep s .ret ⟨s.tasks, .done⟩

inductive RTrace : RunnerState → List REv → RunnerState → Prop where
  | nil (s : RunnerState) : RTrace s [] s
  | cons {s s' s'' : RunnerState} {e : REv} {evs : List REv} :
      RStep s e s' → RTrace s' evs s'' → RTrace s (e :: evs) s''

/-- Initial state: `n` collector tasks running (three per container), finish
not yet called. -/
def runnerInit (n : Nat) : RunnerState := ⟨List.replicate n true, .start⟩

def AllStopped (s : RunnerState) : Prop := ∀ b ∈ s.tasks, b = false

theorem allStopped_of_step {s s' : RunnerState} {e : REv}
    (h : RStep s e s') (hs : AllStopped s) : AllStopped s' := by
  cases h with
  | taskExit i hi =>
    intro b hb
    rcases List.mem_or_eq_of_mem_set hb with hb | hb
    · exact hs b hb
    · exact hb
  | write => exact hs
  | send => exact hs
  | join => exact hs
  | stopContainer => exact hs
  | removeContainer => exact hs
  | removeNetwork => exact hs
  | ret => exact hs

theorem noWrite_of_allStopped {s s' : RunnerState} {tr : List REv}
    (h : RTrace s tr s') (hs : AllStopped s) : ∀ i, REv.write i ∉ tr := by
  induction h with
  | nil => intro i hmem; simp at hmem
  | cons hstep htr ih =>
    intro i hmem
    rcases List.mem_cons.mp hmem with he | he
    · cases hstep with
      | write j hj =>
        cases he
        exact absurd (hs true (List.get?_mem hj)) (by simp)
      | taskExit j hj => simp at he
      | send hp => simp at he
      | join hp hall => simp at he
      | stopContainer j hp => simp at he
      | removeContainer j hp => simp at he
      | removeNetwork j hp => simp at he
      | ret hp => simp at he
    · exact ih (allStopped_of_step hstep hs) i he

/-- Once the join has happened (phase `joined` or `done`), all tasks have
stopped. -/
def PhaseInv (s : RunnerState) : Prop :=
  (s.phase = FinPhase.joined ∨ s.phase = FinPhase.done) → AllStopped s

theorem phaseInv_of_step {s s' : RunnerState} {e : REv}
    (h : RStep s e s') (hs : PhaseInv s) : PhaseInv s' := by
  cases h with
  | write => exact hs
  | taskExit i hi =>
    intro hp b hb
    rcases List.mem_or_eq_of_mem_set hb with hb | hb
    · exact hs hp b hb
    · exact hb
  | send hp => intro hcontra; rcases hcontra with h | h <;> simp at h
  | join hp hall => intro _; exact hall
  | stopContainer j hp => exact hs
  | removeContainer j hp => exact hs
  | removeNetwork j hp => exact hs
  | ret hp => intro _; exact hs (Or.inl hp)

theorem phaseInv_of_trace {s s' : RunnerState} {tr : List REv}
    (h : RTrace s tr s') (hs : PhaseInv s) : PhaseInv s' := by
  induction h with
  | nil => exact hs
  | cons hstep htr ih => exact ih (phaseInv_of_step hstep hs)

theorem tasks_length_of_step {s s' : RunnerState} {e : REv}
    (h : RStep s e s') : s'.tasks.length = s.tasks.length := by
  cases h <;> simp

theorem tasks_length_of_trace {s s' : RunnerState} {tr : List REv}
    (h : RTrace s tr s') : s'.tasks.length = s.tasks.length := by
  induction h with
  | nil => rfl
  | cons hstep htr ih => rw [ih, tasks_length_of_step hstep]

/-- 1 while the send of `finish` is still pending, 0 afterwards. -/
def startFlag : FinPhase → Nat
  | .start => 1
  | _ => 0

theorem count_cons_send (e : REv) (evs : List REv) :
    (e :: evs).count REv.send
      = evs.count REv.send + if e = REv.send then 1 else 0 := by
  rw [List.count_cons]
  congr 1
  by_cases he : e = REv.send <;> simp [he]

/-- The shutdown signal is sent at most once: the send counter of a trace plus
the "send still pending" flag of the final state equals that flag of the
initial state. -/
theorem send_count_of_trace {s s' : RunnerState} {tr : List REv}
    (h : RTrace s tr s') :
    tr.count REv.send + startFlag s'.phase = startFlag s.phase := by
  induction h with
  | nil => simp
  | cons hstep htr ih =>
    cases hstep with
    | write i hi =>
      rw [count_cons_send, if_neg (by simp)]
      simpa using ih
    | taskExit i hi =>
      rw [count_cons_send, if_neg (by simp)]
      simpa using ih
    | send hp =>
      rw [count_cons_send, if_pos rfl, hp]
      simp [startFlag] at ih ⊢
      omega
    | join hp hall =>
      rw [count_cons_send, if_neg (by simp), hp]
      simp [startFlag] at ih ⊢
      omega
    | stopContainer j hp =>
      rw [count_cons_send, if_neg (by simp)]
      simpa using ih
    | removeContainer j hp =>
      rw [count_cons_send, if_neg (by simp)]
      simpa using ih
    | removeNetwork j hp =>
      rw [count_cons_send, if_neg (by simp)]
      simpa using ih
    | ret hp =>
      rw [count_cons_send, if_neg (by simp), hp]
      simp [startFlag] at ih ⊢
      omega

/-- A task that was running at the start of a trace and stopped by its end
produced a `taskExit` event inside the trace. -/
theorem taskExit_mem_of_stopped {tr : List REv} :
    ∀ {s s' : RunnerState}, RTrace s tr s' → ∀ i : Nat,
      s.tasks.get? i = some true → s'.tasks.get? i = some false →
      REv.taskExit i ∈ tr := by
  induction tr with
  | nil =>
    intro s s' h i hi hi'
    cases h
    rw [hi] at hi'
    simp at hi'
  | cons e evs ih =>
    intro s s' h i hi hi'
    cases h with
    | cons hstep htr =>
      cases hstep with
      | write j hj => exact List.mem_cons_of_mem _ (ih htr i hi hi')
      | taskExit j hj =>
        by_cases hij : j = i
        · subst hij
          exact List.mem_cons_self ..
        · refine List.mem_cons_of_mem _ (ih htr i ?_ hi')
          show (s.tasks.set j false).get? i = some true
          rw [List.get?_set_ne _ _ hij]
          exact hi
      | send hp => exact List.mem_cons_of_mem _ (ih htr i hi hi')
      | join hp hall => exact List.mem_cons_of_mem _ (ih htr i hi hi')
      | stopContainer j hp => exact List.mem_cons_of_mem _ (ih htr i hi hi')
      | removeContainer j hp => exact List.mem_cons_of_mem _ (ih htr i hi hi')
      | removeNetwork j hp => exact List.mem_cons_of_mem _ (ih htr i hi hi')
      | ret hp => exact List.mem_cons_of_mem _ (ih htr i hi hi')

theorem teardown_phase_joined {s s' : RunnerState} {e : REv}
    (h : RStep s e s') (ht : isTeardown e = true) :
    s.phase = FinPhase.joined := by
  cases h <;> simp [isTeardown] at ht <;> assumption

theorem trace_append_split {l₁ : List REv} :
    ∀ {l₂ : List REv} {s s'' : RunnerState}, RTrace s (l₁ ++ l₂) s'' →
      ∃ smid, RTrace s l₁ smid ∧ RTrace smid l₂ s'' := by
  induction l₁ with
  | nil => intro l₂ s s'' h; exact ⟨s, RTrace.nil s, h⟩
  | cons e l₁ ih =>
    intro l₂ s s'' h
    cases h with
    | cons hstep htr =>
      obtain ⟨smid, h1, h2⟩ := ih htr
      exact ⟨smid, RTrace.cons hstep h1, h2⟩

theorem allStopped_get? {s : RunnerState} {i : Nat} (h : AllStopped s)
    (hlen : i < s.tasks.length) : s.tasks.get? i = some false := by
  obtain ⟨b, hb⟩ : ∃ b, s.tasks.get? i = some b := by
    rw [List.get?_eq_getElem?]
    exact ⟨_, List.getElem?_eq_getElem hlen⟩
  rw [hb, h b (List.get?_mem hb)]

theorem get?_runnerInit {n i : Nat} (h : i < n) :
    (runnerInit n).tasks.get? i = some true := by
  show (List.replicate n true).get? i = some true
  rw [List.get?_eq_getElem?, List.getElem?_replicate, if_pos h]

/-- C7 (confirmed): the shutdown barrier of `Runner::finish`
(`docker_runner.rs` lines 254-294).  In every execution of the system from
the initial state: the shutdown signal is sent at most once, and exactly once
in any execution where `finish` has returned; `finish` returns only after
every collector task has produced its exit event; and after any teardown
event (stop/remove container, remove network, or the return of `finish`) —
all of which can only follow the `join_all` barrier — no collector writes to
a telemetry file, and every collector task had already exited beforehand. -/
theorem claim7_finish_barrier (n : Nat) (tr : List REv) (s : RunnerState)
    (htr : RTrace (runnerInit n) tr s) :
    tr.count REv.send ≤ 1
    ∧ (s.phase = FinPhase.done →
        tr.count REv.send = 1 ∧ ∀ i < n, REv.taskExit i ∈ tr)
    ∧ ∀ l₁ e l₂, tr = l₁ ++ e :: l₂ → isTeardown e = true →
        (∀ i, REv.write i ∉ l₂) ∧ ∀ i < n, REv.taskExit i ∈ l₁ := by
  have hinv0 : PhaseInv (runnerInit n) := by
    intro hcontra
    rcases hcontra with h | h <;> simp [runnerInit] at h
  have hcount := send_count_of_trace htr
  rw [show startFlag (runnerInit n).phase = 1 from rfl] at hcount
  refine ⟨by omega, ?_, ?_⟩
  · intro hdone
    have hflag : startFlag s.phase = 0 := by
      rw [hdone]
      rfl
    constructor
    · omega
    · intro i hi
      have hall : AllStopped s := phaseInv_of_trace htr hinv0 (Or.inr hdone)
      have hlen : i < s.tasks.length := by
        rw [tasks_length_of_trace htr]
        simpa [runnerInit] using hi
      exact taskExit_mem_of_stopped htr i (get?_runnerInit hi)
        (allStopped_get? hall hlen)
  · intro l₁ e l₂ heq htear
    subst heq
    obtain ⟨smid, h1, h2⟩ := trace_append_split htr
    cases h2 with
    | cons hstep htr2 =>
      have hphase := teardown_phase_joined hstep htear
      have hall : AllStopped smid :=
        phaseInv_of_trace h1 hinv0 (Or.inl hphase)
      constructor
      · exact fun i => noWrite_of_allStopped htr2 (allStopped_of_step hstep hall) i
      · intro i hi
        have hlen : i < smid.tasks.length := by
          rw [tasks_length_of_trace h1]
          simpa [runnerInit] using hi
        exact taskExit_mem_of_stopped h1 i (get?_runnerInit hi)
          (allStopped_get? hall hlen)

theorem claim7_witness :
    ([REv.write 0, REv.send, REv.taskExit 0, REv.join, REv.stopContainer 0,
        REv.removeContainer 0, REv.removeNetwork 0, REv.ret].count REv.send = 1)
    ∧ ∀ i < 1, REv.taskExit i
        ∈ [REv.write 0, REv.send, REv.taskExit 0, REv.join, REv.stopContainer 0,
            REv.removeContainer 0, REv.removeNetwork 0, REv.ret] :=
  (claim7_finish_barrier 1 _ ⟨[false], FinPhase.done⟩
    (RTrace.cons (RStep.write _ 0 rfl)
      (RTrace.cons (RStep.send _ rfl)
        (RTrace.cons (RStep.taskExit _ 0 rfl)
          (RTrace.cons (RStep.join _ rfl (by decide))
            (RTrace.cons (RStep.stopContainer _ 0 rfl)
              (RTrace.cons (RStep.removeContainer _ 0 rfl)
                (RTrace.cons (RStep.removeNetwork _ 0 rfl)
                  (RTrace.cons (RStep.ret _ rfl)
                    (RTrace.nil _))))))))) ).2.1 rfl

/-! ## `Stats::from_bollard` (`docker_runner.rs` lines 339-722)

The input types mirror `bollard::container::Stats` as consumed by the source:
`u32`/`u64` become `Nat`, `i64` `Int`, timestamps `Int`, `Vec` `List`, the
`networks` map a list of name/stats pairs.  The memory-accounting payload is
the tagged union `MemoryStatsStats` with the historical v1 (cgroup v1) and v2
(cgroup v2) shapes, resolved per sample. -/

structure PidsStats where
  current : Option Nat
  limit : Option Nat
deriving DecidableEq

structure NetworkStats where
  rx_dropped : Nat
  rx_bytes : Nat
  rx_errors : Nat
  rx_packets : Nat
  tx_packets : Nat
  tx_dropped : Nat
  tx_errors : Nat
  tx_bytes : Nat
deriving DecidableEq

structure MemoryStatsStatsV1 where
  cache : Nat
  dirty : Nat
  mapped_file : Nat
  total_inactive_file : Nat
  pgpgout : Nat
  rss : Nat
  total_mapped_file : Nat
  writeback : Nat
  unevictable : Nat
  pgpgin : Nat
  total_unevictable : Nat
  pgmajfault : Nat
  total_rss : Nat
  total_rss_huge : Nat
  total_writeback : Nat
  total_inactive_anon : Nat
  rss_huge : Nat
  hierarchical_memory_limit : Nat
  total_pgfault : Nat
  total_active_file : Nat
  active_anon : Nat
  total_active_anon : Nat
  total_pgpgout : Nat
  total_cache : Nat
  total_dirty : Nat
  inactive_anon : Nat
  active_file : Nat
  pgfault : Nat
  inactive_file : Nat
  total_pgmajfault : Nat
  total_pgpgin : Nat
  hierarchical_memsw_limit : Option Nat
  shmem : Option Nat
  total_shmem : Option Nat
deriving DecidableEq

structure MemoryStatsStatsV2 where
  anon : Nat
  file : Nat
  kernel_stack : Nat
  slab : Nat
  sock : Nat
  shmem : Nat
  file_mapped : Nat
  file_dirty : Nat
  file_writeback : Nat
  anon_thp : Nat
  inactive_anon : Nat
  active_anon : Nat
  inactive_file : Nat
  active_file : Nat
  unevictable : Nat
  slab_reclaimable : Nat
  slab_unreclaimable : Nat
  pgfault : Nat
  pgmajfault : Nat
  workingset_refault : Nat
  workingset_activate : Nat
  workingset_nodereclaim : Nat
  pgrefill : Nat
  pgscan : Nat
  pgsteal : Nat
  pgactivate : Nat
  pgdeactivate : Nat
  pglazyfree : Nat
  pglazyfreed : Nat
  thp_fault_alloc : Nat
  thp_collapse_alloc : Nat
deriving DecidableEq

/-- The two historically distinct memory-accounting shapes, tagged as a
variant (`bollard::container::MemoryStatsStats`). -/
inductive MemoryStatsStats where
  | V1 (v : MemoryStatsStatsV1)
  | V2 (v : MemoryStatsStatsV2)
deriving DecidableEq

structure MemoryStats where
  stats : Option MemoryStatsStats
  max_usage : Option Nat
  usage : Option Nat
  failcnt : Option Nat
  limit : Option Nat
  commit : Option Nat
  commit_peak : Option Nat
  commitbytes : Option Nat
  commitpeakbytes : Option Nat
  privateworkingset : Option Nat
deriving DecidableEq

structure CPUUsage where
  percpu_usage : Option (List Nat)
  usage_in_usermode : Nat
  total_usage : Nat
  usage_in_kernelmode : Nat
deriving DecidableEq

structure ThrottlingData where
  periods : Nat
  throttled_periods : Nat
  throttled_time : Nat
deriving DecidableEq

structure CPUStats where
  cpu_usage : CPUUsage
  system_cpu_usage : Option Nat
  online_cpus : Option Nat
  throttling_data : ThrottlingData
deriving DecidableEq

structure BlkioStatsEntry where
  major : Nat
  minor : Nat
  op : String
  value : Nat
deriving DecidableEq

structure BlkioStats where
  io_service_bytes_recursive : Option (List BlkioStatsEntry)
  io_serviced_recursive : Option (List BlkioStatsEntry)
  io_queue_recursive : Option (List BlkioStatsEntry)
  io_service_time_recursive : Option (List BlkioStatsEntry)
  io_wait_time_recursive : Option (List BlkioStatsEntry)
  io_merged_recursive : Option (List BlkioStatsEntry)
  io_time_recursive : Option (List BlkioStatsEntry)
  sectors_recursive : Option (List BlkioStatsEntry)
deriving DecidableEq

structure StorageStats where
  read_count_normalized : Option Nat
  read_size_bytes : Option Nat
  write_count_normalized : Option Nat
  write_size_bytes : Option Nat
deriving DecidableEq

/-- `bollard::container::Stats`: one sample of the engine's periodic
resource-usage stream, as destructured by `Stats::from_bollard`. -/
structure BollardStats where
  read : Int
  preread : Int
  num_procs : Nat
  pids_stats : PidsStats
  network : Option NetworkStats
  networks : Option (List (String × NetworkStats))
  memory_stats : MemoryStats
  blkio_stats : BlkioStats
  cpu_stats : CPUStats
  precpu_stats : CPUStats
  storage_stats : StorageStats
  name : String
  id : String
deriving DecidableEq

/-- The flattened record the repository declares for its stats CSV
(`docker_runner.rs` lines 339-510), field for field. -/
structure Stats where
  read : Int
  preread : Int
  num_procs : Nat
  pids_stats_current : Option Nat
  pids_stats_limit : Option Nat
  network_rx_dropped : Option Nat
  network_rx_bytes : Option Nat
  network_rx_errors : Option Nat
  network_rx_packets : Option Nat
  network_tx_packets : Option Nat
  network_tx_dropped : Option Nat
  network_tx_errors : Option Nat
  network_tx_bytes : Option Nat
  networks_name : Option String
  networks_rx_dropped : Option Nat
  networks_rx_bytes : Option Nat
  networks_rx_errors : Option Nat
  networks_rx_packets : Option Nat
  networks_tx_packets : Option Nat
  networks_tx_dropped : Option Nat
  networks_tx_errors : Option Nat
  networks_tx_bytes : Option Nat
  memory_stats_stats_v1_cache : Option Nat
  memory_stats_stats_v1_dirty : Option Nat
  memory_stats_stats_v1_mapped_file : Option Nat
  memory_stats_stats_v1_total_inactive_file : Option Nat
  memory_stats_stats_v1_pgpgout : Option Nat
  memory_stats_stats_v1_rss : Option Nat
  memory_stats_stats_v1_total_mapped_file : Option Nat
  memory_stats_stats_v1_writeback : Option Nat
  memory_stats_stats_v1_unevictable : Option Nat
  memory_stats_stats_v1_pgpgin : Option Nat
  memory_stats_stats_v1_total_unevictable : Option Nat
  memory_stats_stats_v1_pgmajfault : Option Nat
  memory_stats_stats_v1_total_rss : Option Nat
  memory_stats_stats_v1_total_rss_huge : Option Nat
  memory_stats_stats_v1_total_writeback : Option Nat
  memory_stats_stats_v1_total_inactive_anon : Option Nat
  memory_stats_stats_v1_rss_huge : Option Nat
  memory_stats_stats_v1_hierarchical_memory_limit : Option Nat
  memory_stats_stats_v1_total_pgfault : Option Nat
  memory_stats_stats_v1_total_active_file : Option Nat
  memory_stats_stats_v1_active_anon : Option Nat
  memory_stats_stats_v1_total_active_anon : Option Nat
  memory_stats_stats_v1_total_pgpgout : Option Nat
  memory_stats_stats_v1_total_cache : Option Nat
  memory_stats_stats_v1_total_dirty : Option Nat
  memory_stats_stats_v1_inactive_anon : Option Nat
  memory_stats_stats_v1_active_file : Option Nat
  memory_stats_stats_v1_pgfault : Option Nat
  memory_stats_stats_v1_inactive_file : Option Nat
  memory_stats_stats_v1_total_pgmajfault : Option Nat
  memory_stats_stats_v1_total_pgpgin : Option Nat
  memory_stats_stats_v1_hierarchical_memsw_limit : Option Nat
  memory_stats_stats_v1_shmem : Option Nat
  memory_stats_stats_v1_total_shmem : Option Nat
  memory_stats_stats_v2_anon : Option Nat
  memory_stats_stats_v2_file : Option Nat
  memory_stats_stats_v2_kernel_stack : Option Nat
  memory_stats_stats_v2_slab : Option Nat
  memory_stats_stats_v2_sock : Option Nat
  memory_stats_stats_v2_shmem : Option Nat
  memory_stats_stats_v2_file_mapped : Option Nat
  memory_stats_stats_v2_file_dirty : Option Nat
  memory_stats_stats_v2_file_writeback : Option Nat
  memory_stats_stats_v2_anon_thp : Option Nat
  memory_stats_stats_v2_inactive_anon : Option Nat
  memory_stats_stats_v2_active_anon : Option Nat
  memory_stats_stats_v2_inactive_file : Option Nat
  memory_stats_stats_v2_active_file : Option Nat
  memory_stats_stats_v2_unevictable : Option Nat
  memory_stats_stats_v2_slab_reclaimable : Option Nat
  memory_stats_stats_v2_slab_unreclaimable : Option Nat
  memory_stats_stats_v2_pgfault : Option Nat
  memory_stats_stats_v2_pgmajfault : Option Nat
  memory_stats_stats_v2_workingset_refault : Option Nat
  memory_stats_stats_v2_workingset_activate : Option Nat
  memory_stats_stats_v2_workingset_nodereclaim : Option Nat
  memory_stats_stats_v2_pgrefill : Option Nat
  memory_stats_stats_v2_pgscan : Option Nat
  memory_stats_stats_v2_pgsteal : Option Nat
  memory_stats_stats_v2_pgactivate : Option Nat
  memory_stats_stats_v2_pgdeactivate : Option Nat
  memory_stats_stats_v2_pglazyfree : Option Nat
  memory_stats_stats_v2_pglazyfreed : Option Nat
  memory_stats_stats_v2_thp_fault_alloc : Option Nat
  memory_stats_stats_v2_thp_collapse_alloc : Option Nat
  memory_stats_max_usage : Option Nat
  memory_stats_usage : Option Nat
  memory_stats_failcnt : Option Nat
  memory_stats_limit : Option Nat
  memory_stats_commit : Option Nat
  memory_stats_commit_peak : Option Nat
  memory_stats_commitbytes : Option Nat
  memory_stats_commitpeakbytes : Option Nat
  memory_stats_privateworkingset : Option Nat
  blkio_stats_index : Nat
  blkio_stats_io_service_bytes_recursive_major : Option Nat
  blkio_stats_io_service_bytes_recursive_minor : Option Nat
  blkio_stats_io_service_bytes_recursive_op : Option String
  blkio_stats_io_service_bytes_recursive_value : Option Nat
  blkio_stats_io_serviced_recursive_major : Option Nat
  blkio_stats_io_serviced_recursive_minor : Option Nat
  blkio_stats_io_serviced_recursive_op : Option String
  blkio_stats_io_serviced_recursive_value : Option Nat
  blkio_stats_io_queue_recursive_major : Option Nat
  blkio_stats_io_queue_recursive_minor : Option Nat
  blkio_stats_io_queue_recursive_op : Option String
  blkio_stats_io_queue_recursive_value : Option Nat
  blkio_stats_io_service_time_recursive_major : Option Nat
  blkio_stats_io_service_time_recursive_minor : Option Nat
  blkio_stats_io_service_time_recursive_op : Option String
  blkio_stats_io_service_time_recursive_value : Option Nat
  blkio_stats_io_wait_time_recursive_major : Option Nat
  blkio_stats_io_wait_time_recursive_minor : Option Nat
  blkio_stats_io_wait_time_recursive_op : Option String
  blkio_stats_io_wait_time_recursive_value : Option Nat
  blkio_stats_io_merged_recursive_major : Option Nat
  blkio_stats_io_merged_recursive_minor : Option Nat
  blkio_stats_io_merged_recursive_op : Option String
  blkio_stats_io_merged_recursive_value : Option Nat
  blkio_stats_io_time_recursive_major : Option Nat
  blkio_stats_io_time_recursive_minor : Option Nat
  blkio_stats_io_time_recursive_op : Option String
  blkio_stats_io_time_recursive_value : Option Nat
  blkio_stats_sectors_recursive_major : Option Nat
  blkio_stats_sectors_recursive_minor : Option Nat
  blkio_stats_sectors_recursive_op : Option String
  blkio_stats_sectors_recursive_value : Option Nat
  cpu_stats_cpu_usage_percpu_usage : Option (List Nat)
  cpu_stats_cpu_usage_usage_in_usermode : Nat
  cpu_stats_cpu_usage_total_usage : Nat
  cpu_stats_cpu_usage_usage_in_kernelmode : Nat
  cpu_stats_system_cpu_usage : Option Nat
  cpu_stats_online_cpus : Option Nat
  cpu_stats_throttling_data_periods : Nat
  cpu_stats_throttling_data_throttled_periods : Nat
  cpu_stats_throttling_data_throttled_time : Nat
  precpu_stats_cpu_usage_percpu_usage : Option (List Nat)
  precpu_stats_cpu_usage_usage_in_usermode : Nat
  precpu_stats_cpu_usage_total_usage : Nat
  precpu_stats_cpu_usage_usage_in_kernelmode : Nat
  precpu_stats_system_cpu_usage : Option Nat
  precpu_stats_online_cpus : Option Nat
  precpu_stats_throttling_data_periods : Nat
  precpu_stats_throttling_data_throttled_periods : Nat
  precpu_stats_throttling_data_throttled_time : Nat
  storage_stats_read_count_normalized : Option Nat
  storage_stats_read_size_bytes : Option Nat
  storage_stats_write_count_normalized : Option Nat
  storage_stats_write_size_bytes : Option Nat
  name : String
  id : String

/-- `Stats::from_bollard` (`docker_runner.rs` lines 512-722).  The function
destructures the sample and binds `memv1`/`memv2` by resolving the tagged
memory shape; the `Stats { .. }` record literal then evaluates its field
initializers in source order: `read` through `network_tx_bytes` evaluate
without panicking, after which the initializer of `networks_name` is
`todo!()`, which panics unconditionally.  The thirty-two further `todo!()`
initializers (the remaining `networks_*`, the `memory_stats_*` scalar and the
`blkio_stats_*` fields) are never reached.  The panic is modelled as
`Except.error`; no `Stats` record is ever produced. -/
def Stats.from_bollard (stats : BollardStats) : Except String (List Stats) :=
  let _memv1 := stats.memory_stats.stats.bind fun v =>
    match v with
    | MemoryStatsStats.V1 v1 => some v1
    | _ => none
  let _memv2 := stats.memory_stats.stats.bind fun v =>
    match v with
    | MemoryStatsStats.V2 v2 => some v2
    | _ => none
  let _network_rx_dropped := stats.network.map fun v => v.rx_dropped
  let _network_rx_bytes := stats.network.map fun v => v.rx_bytes
  let _network_rx_errors := stats.network.map fun v => v.rx_errors
  let _network_rx_packets := stats.network.map fun v => v.rx_packets
  let _network_tx_packets := stats.network.map fun v => v.tx_packets
  let _network_tx_dropped := stats.network.map fun v => v.tx_dropped
  let _network_tx_errors := stats.network.map fun v => v.tx_errors
  let _network_tx_bytes := stats.network.map fun v => v.tx_bytes
  Except.error "not yet implemented"

/-- A concrete cgroup-v1-shaped sample. -/
def sampleStatsV1 : BollardStats :=
  ⟨0, 0, 1, ⟨none, none⟩, none, none,
    ⟨some (MemoryStatsStats.V1
        ⟨0, 0, 0, 0, 0, 0, 0, 0, 0, 0, 0, 0, 0, 0, 0, 0, 0, 0, 0, 0, 0, 0, 0,
          0, 0, 0, 0, 0, 0, 0, 0, none, none, none⟩),
      none, none, none, none, none, none, none, none, none⟩,
    ⟨none, none, none, none, none, none, none, none⟩,
    ⟨⟨none, 0, 0, 0⟩, none, none, ⟨0, 0, 0⟩⟩,
    ⟨⟨none, 0, 0, 0⟩, none, none, ⟨0, 0, 0⟩⟩,
    ⟨none, none, none, none⟩, "container", "id"⟩

/-- A concrete cgroup-v2-shaped sample. -/
def sampleStatsV2 : BollardStats :=
  ⟨0, 0, 1, ⟨none, none⟩, none, none,
    ⟨some (MemoryStatsStats.V2
        ⟨0, 0, 0, 0, 0, 0, 0, 0, 0, 0, 0, 0, 0, 0, 0, 0, 0, 0, 0, 0, 0, 0, 0,
          0, 0, 0, 0, 0, 0, 0, 0⟩),
      none, none, none, none, none, none, none, none, none⟩,
    ⟨none, none, none, none, none, none, none, none⟩,
    ⟨⟨none, 0, 0, 0⟩, none, none, ⟨0, 0, 0⟩⟩,
    ⟨⟨none, 0, 0, 0⟩, none, none, ⟨0, 0, 0⟩⟩,
    ⟨none, none, none, none⟩, "container", "id"⟩

/-- C9 (code bug): the conversion of a received sample never completes — for
every sample, of either memory-accounting shape, `Stats::from_bollard` hits
the `todo!()` initializer of `networks_name` (`docker_runner.rs` line 561)
and panics, so no structured record is ever appended to the stats file and
the stats collector task dies on its first received sample.  This contradicts
the claim (and the stated intent of the surrounding code); the `todo!()`
markers are unfinished work. -/
theorem claim9_stats_conversion_panics :
    Stats.from_bollard sampleStatsV1 = Except.error "not yet implemented"
    ∧ Stats.from_bollard sampleStatsV2 = Except.error "not yet implemented"
    ∧ ∀ stats : BollardStats,
        Stats.from_bollard stats = Except.error "not yet implemented" :=
  ⟨rfl, rfl, fun _ => rfl⟩

/-! ## `Logs::from_file` (`docker_runner.rs` lines 307-337) -/

inductive IoErrorKind where
  | notFound
  | invalidInput
  | other
deriving DecidableEq

/-- `Logs` (`docker_runner.rs` lines 301-305): the container name and the
parsed `(timestamp, text)` lines.  The timestamp is the parsed RFC3339 value,
modelled as an opaque `Int`. -/
structure Logs where
  container_name : String
  lines : List (Int × String)
deriving DecidableEq

/-- Result of `Logs::from_file`: `io::Result<Logs>`, plus the panic outcome of
the `parse_from_rfc3339(..).unwrap()` call on a malformed timestamp. -/
inductive FromFileRes where
  | ok (l : Logs)
  | err (k : IoErrorKind)
  | panic
deriving DecidableEq

/-- Split a character list at its last `'.'`, returning the parts before and
after it. -/
def lastDotSplit : List Char → Option (List Char × List Char)
  | [] => none
  | c :: cs =>
    match lastDotSplit cs with
    | some (b, a) => some (c :: b, a)
    | none => if c = '.' then some ([], cs) else none

/-- Rust `Path::file_stem` on a non-empty file name: the whole name when it
has no `'.'`, the whole name when it begins with `'.'` and has no other
`'.'`, otherwise the portion before the final `'.'`. -/
def rustFileStem (s : String) : String :=
  match lastDotSplit s.data with
  | none => s
  | some (b, _) => if b = [] then s else String.mk b

/-- `path.file_stem()`: `none` when the path has no file name.  The path is
modelled by its optional file name. -/
def fileStem (file_name : Option String) : Option String :=
  file_name.map rustFileStem

/-- Rust `str::strip_prefix`. -/
def stripPre (p s : String) : Option String :=
  if p.data.isPrefixOf s.data then some (String.mk (s.data.drop p.data.length))
  else none

/-- Rust `line.splitn(2, ' ')` when it yields two parts: split at the first
space, or `none` when the line has no space (in which case the
`if let [date, text]` pattern in the source fails and the line is skipped). -/
def splitFirstSpace : List Char → Option (List Char × List Char)
  | [] => none
  | c :: cs =>
    if c = ' ' then some ([], cs)
    else (splitFirstSpace cs).map fun (a, b) => (c :: a, b)

/-- The line-parsing loop of `Logs::from_file`: for each line with a space,
parse the leading RFC3339 timestamp (`.unwrap()`: a malformed timestamp
panics, modelled as `none`) and keep `(timestamp, rest)`; space-less lines
are skipped. -/
def parseLogLines (parseDate : String → Option Int) :
    List String → Option (List (Int × String))
  | [] => some []
  | line :: rest =>
    match splitFirstSpace line.data with
    | none => parseLogLines parseDate rest
    | some (d, t) =>
      match parseDate (String.mk d) with
      | none => none
      | some dt =>
        (parseLogLines parseDate rest).map fun ls => (dt, String.mk t) :: ls

/-- `Logs::from_file` (`docker_runner.rs` lines 308-336).  `parseDate` stands
for `chrono::DateTime::parse_from_rfc3339`, `openFile` for the outcome of
`File::open` plus reading the lines (an open error carries its kind), and
`file_name` for the path's file name. -/
def Logs.from_file (parseDate : String → Option Int)
    (openFile : Except IoErrorKind (List String))
    (file_name : Option String) : FromFileRes :=
  match fileStem file_name with
  | some stem =>
    match stripPre "docker-" stem with
    | some name =>
      match openFile with
      | Except.error k => FromFileRes.err k
      | Except.ok ls =>
        match parseLogLines parseDate ls with
        | none => FromFileRes.panic
        | some lines => FromFileRes.ok ⟨name, lines⟩
    | none => FromFileRes.err IoErrorKind.invalidInput
  | none => FromFileRes.err IoErrorKind.notFound

/-- C10 (confirmed): `Logs::from_file` returns `Ok` only for a path whose
file stem starts with `"docker-"` (and then the container name is the stem
with that prefix stripped); a stem lacking the prefix yields an
`InvalidInput` error before the file is even opened; a path with no file stem
yields a `NotFound` error.  The last conjunct ties `stripPre` returning
`none` to the stem not starting with the prefix. -/
theorem claim10_from_file_prefix_gate (parseDate : String → Option Int)
    (openFile : Except IoErrorKind (List String)) (file_name : Option String) :
    (fileStem file_name = none →
      Logs.from_file parseDate openFile file_name
        = FromFileRes.err IoErrorKind.notFound)
    ∧ (∀ stem, fileStem file_name = some stem →
        stripPre "docker-" stem = none →
        Logs.from_file parseDate openFile file_name
          = FromFileRes.err IoErrorKind.invalidInput)
    ∧ (∀ l, Logs.from_file parseDate openFile file_name = FromFileRes.ok l →
        ∃ stem rest, fileStem file_name = some stem
          ∧ stripPre "docker-" stem = some rest ∧ l.container_name = rest)
    ∧ ∀ s : String,
        stripPre "docker-" s = none ↔ ¬ "docker-".data.isPrefixOf s.data := by
  refine ⟨?_, ?_, ?_, ?_⟩
  · intro h
    simp [Logs.from_file, h]
  · intro stem h1 h2
    simp [Logs.from_file, h1, h2]
  · intro l h
    cases hstem : fileStem file_name with
    | none => simp [Logs.from_file, hstem] at h
    | some stem =>
      cases hpre : stripPre "docker-" stem with
      | none => simp [Logs.from_file, hstem, hpre] at h
      | some rest =>
        cases hopen : openFile with
        | error k => simp [Logs.from_file, hstem, hpre, hopen] at h
        | ok ls =>
          cases hparse : parseLogLines parseDate ls with
          | none => simp [Logs.from_file, hstem, hpre, hopen, hparse] at h
          | some lines =>
            refine ⟨stem, rest, rfl, hpre, ?_⟩
            simp [Logs.from_file, hstem, hpre, hopen, hparse] at h
            rw [← h]
  · intro s
    unfold stripPre
    by_cases h : "docker-".data.isPrefixOf s.data <;> simp [h]

theorem claim10_witness :
    (Logs.from_file (fun _ => none) (Except.ok []) none
      = FromFileRes.err IoErrorKind.notFound)
    ∧ (Logs.from_file (fun _ => none) (Except.ok []) (some "x.log")
        = FromFileRes.err IoErrorKind.invalidInput)
    ∧ ∃ stem rest, fileStem (some "docker-web.log") = some stem
        ∧ stripPre "docker-" stem = some rest
        ∧ (Logs.mk "web" []).container_name = rest :=
  ⟨(claim10_from_file_prefix_gate (fun _ => none) (Except.ok []) none).1 rfl,
    (claim10_from_file_prefix_gate (fun _ => none) (Except.ok [])
      (some "x.log")).2.1 "x" rfl rfl,
    (claim10_from_file_prefix_gate (fun _ => none) (Except.ok [])
      (some "docker-web.log")).2.2.1 ⟨"web", []⟩ rfl⟩
